import Mathlib

/-!
Verification of the kube-parrot `ExternalServicesController`
(src/pkg/controller/externalservices.go) against its natural-language
specification.

The controller keeps three caches (proxies, services, endpoints) fed by
event callbacks, and a reconcile function that converges an external
route store to the set of (service, proxy) pairs derivable from the
caches.  The caches are `k8s.io/client-go` `cache.Store`s keyed by
`DeletionHandlingMetaNamespaceKeyFunc`, i.e. by the object's
namespace/name pair; we model a store as a list of objects together
with a key function, with upsert `cAdd`, keyed `cDelete`, first-match
`cGet` and enumeration (the list itself).
-/

set_option autoImplicit false

namespace KubeParrot

/-- Identity of a namespaced Kubernetes object: namespace + name.
This is what `DeletionHandlingMetaNamespaceKeyFunc` computes. -/
structure ObjKey where
  ns : String
  nm : String
deriving DecidableEq, Repr

/-- A `v1.Pod` restricted to the fields the controller reads:
namespace, name, `Status.HostIP`, and the pod-ready condition.
The field `ready` stands for `util.IsPodReady(pod)` (the forked
utility package is not part of the sources; the spec describes it as
the pod's "liveness/readiness condition"). -/
structure Pod where
  ns : String
  nm : String
  hostIP : String
  ready : Bool
deriving DecidableEq, Repr

def Pod.key (p : Pod) : ObjKey := ⟨p.ns, p.nm⟩

/-- A `v1.Service` restricted to the fields the controller reads:
namespace, name and `Spec.ExternalIPs`. -/
structure Service where
  ns : String
  nm : String
  externalIPs : List String
deriving DecidableEq, Repr

def Service.key (s : Service) : ObjKey := ⟨s.ns, s.nm⟩

/-- A `v1.Endpoints` restricted to the fields the controller reads:
namespace, name, and for each subset its address list. -/
structure Endpoints where
  ns : String
  nm : String
  subsets : List (List String)
deriving DecidableEq, Repr

def Endpoints.key (e : Endpoints) : ObjKey := ⟨e.ns, e.nm⟩

/-! ## The observed-state cache (`cache.Store` with namespace/name keys) -/

/-- `Get`: return the first stored object whose key matches `k`. -/
def cGet {α : Type} (keyOf : α → ObjKey) (items : List α) (k : ObjKey) : Option α :=
  items.find? (fun v => decide (keyOf v = k))

/-- `Add`: idempotent upsert — overwrite the entry under the object's
key if present, else append the object. -/
def cAdd {α : Type} (keyOf : α → ObjKey) (items : List α) (v : α) : List α :=
  if (cGet keyOf items (keyOf v)).isSome then
    items.map (fun w => if keyOf w = keyOf v then v else w)
  else items ++ [v]

/-- `Delete`: remove every entry stored under key `k` (no-op when the
key is absent). -/
def cDelete {α : Type} (keyOf : α → ObjKey) (items : List α) (k : ObjKey) : List α :=
  items.filter (fun v => decide (keyOf v ≠ k))

/-! ## Node address and the proxy filter constants -/

/-- The node host address handed to the controller at construction
(`hostIP net.IP`).  `v4` is an address that has an IPv4 form; `other`
is one that does not (e.g. a plain IPv6 address), for which Go's
`ip.To4()` returns `nil`. -/
inductive NodeAddr where
  | v4 (a b c d : Nat)
  | other (s : String)
deriving DecidableEq, Repr

/-- `hostIP.To4().String()`: the dotted-decimal rendering when the
address has an IPv4 form, and the string `"<nil>"` otherwise (Go's
`net.IP.String()` on a `nil` IP). -/
def NodeAddr.to4String : NodeAddr → String
  | .v4 a b c d =>
      toString a ++ "." ++ toString b ++ "." ++ toString c ++ "." ++ toString d
  | .other _ => "<nil>"

/-- Go's `strings.HasPrefix(s, pfx)`, on the character sequence of the
strings. -/
def goHasPfx (pfx s : String) : Bool := pfx.toList.isPrefixOf s.toList

/-- Modelled from the spec: `types.KubeProxyPrefix`, the designated
name marker of kube-proxy pods (the `types` package is not in the
sources). -/
def kubeProxyPfx : String := "kube-proxy"

/-- Modelled from the spec: `types.KubeProxyNamespace`, the designated
system namespace of kube-proxy pods (the `types` package is not in the
sources). -/
def kubeProxyNs : String := "kube-system"

/-- Endpoints readiness exactly as computed by `endpointsAdd`: some
subset has a non-empty address list. -/
def endpointsReady (e : Endpoints) : Bool :=
  e.subsets.any (fun v => v.length > 0)

/-! ## Controller state and the event-adapter handlers -/

/-- The mutable state of the controller that the handlers touch: the
three caches, plus a counter of `reconciler.Dirty()` calls (the dirty
signal is the only interaction with the reconciler from a handler). -/
structure CtrlState where
  proxies : List Pod
  services : List Service
  endpoints : List Endpoints
  dirty : Nat
deriving DecidableEq, Repr

def CtrlState.empty : CtrlState := ⟨[], [], [], 0⟩

/-- `podAdd`: skip pods lacking the kube-proxy name marker or outside
the system namespace; skip pods whose `Status.HostIP` differs from
`hostIP.To4().String()`; then insert if ready and absent, remove if
not ready and present, raising dirty on each mutation. -/
def podAdd (nodeAddr : NodeAddr) (st : CtrlState) (pod : Pod) : CtrlState :=
  if goHasPfx kubeProxyPfx pod.nm = false ∨ pod.ns ≠ kubeProxyNs then st
  else if pod.hostIP ≠ nodeAddr.to4String then st
  else if pod.ready then
    if (cGet Pod.key st.proxies pod.key).isSome then st
    else { st with proxies := cAdd Pod.key st.proxies pod, dirty := st.dirty + 1 }
  else
    if (cGet Pod.key st.proxies pod.key).isSome then
      { st with proxies := cDelete Pod.key st.proxies pod.key, dirty := st.dirty + 1 }
    else st

/-- `podDelete`: remove the pod and raise dirty only when it is
cached. -/
def podDelete (st : CtrlState) (pod : Pod) : CtrlState :=
  if (cGet Pod.key st.proxies pod.key).isSome then
    { st with proxies := cDelete Pod.key st.proxies pod.key, dirty := st.dirty + 1 }
  else st

/-- `podUpdate`: re-run the add path on the new object. -/
def podUpdate (nodeAddr : NodeAddr) (st : CtrlState) (_old cur : Pod) : CtrlState :=
  podAdd nodeAddr st cur

/-- `serviceAdd`: skip services with no external IPs (the annotation
gate is commented out in the source); insert and raise dirty only when
absent. -/
def serviceAdd (st : CtrlState) (svc : Service) : CtrlState :=
  if svc.externalIPs.length = 0 then st
  else if (cGet Service.key st.services svc.key).isSome then st
  else { st with services := cAdd Service.key st.services svc, dirty := st.dirty + 1 }

/-- `serviceDelete`: unconditionally delete from the cache and raise
dirty (the source has no cached-presence check here). -/
def serviceDelete (st : CtrlState) (svc : Service) : CtrlState :=
  { st with services := cDelete Service.key st.services svc.key, dirty := st.dirty + 1 }

/-- `serviceUpdate`: re-run the add path on the new object. -/
def serviceUpdate (st : CtrlState) (_old cur : Service) : CtrlState :=
  serviceAdd st cur

/-- `endpointsAdd`: insert if some subset has addresses and the object
is absent, remove if none has and it is present, raising dirty on each
mutation. -/
def endpointsAdd (st : CtrlState) (e : Endpoints) : CtrlState :=
  if endpointsReady e then
    if (cGet Endpoints.key st.endpoints e.key).isSome then st
    else { st with endpoints := cAdd Endpoints.key st.endpoints e, dirty := st.dirty + 1 }
  else
    if (cGet Endpoints.key st.endpoints e.key).isSome then
      { st with endpoints := cDelete Endpoints.key st.endpoints e.key, dirty := st.dirty + 1 }
    else st

/-- `endpointsDelete`: remove the object and raise dirty only when it
is cached. -/
def endpointsDelete (st : CtrlState) (e : Endpoints) : CtrlState :=
  if (cGet Endpoints.key st.endpoints e.key).isSome then
    { st with endpoints := cDelete Endpoints.key st.endpoints e.key, dirty := st.dirty + 1 }
  else st

/-- `endpointsUpdate`: re-run the add path on the new object. -/
def endpointsUpdate (st : CtrlState) (_old cur : Endpoints) : CtrlState :=
  endpointsAdd st cur

/-! ## The route store and the reconcile function

`bgp.ExternalIPRoutesStore` is a collaborator whose sources are not
under src/; the spec fixes its contract: `List` enumerates the current
routes, `Add(service, proxy)` and `Delete(route)` are idempotent and
return error-or-success, and routes are keyed by the (Service, Proxy)
pair.  We model it from that contract, additionally logging every
`Add`/`Delete` call issued so that claims about which calls a
reconcile run makes are statable, and parameterising over error
oracles so that failing calls are statable. -/

/-- Modelled from the spec: a route of the Route Store, keyed by its
(Service, Proxy) pair — "each route carries enough identity to map
back to a Service and a Proxy".  `route.Service` and `route.Proxy` are
looked up in the caches via the namespace/name key function, so the
identity is the pair of object keys. -/
structure Route where
  svc : ObjKey
  proxy : ObjKey
deriving DecidableEq, Repr

/-- Modelled from the spec: the Route Store state — its current route
set (`routes`) — extended with logs of the `Delete` and `Add` calls
issued to it, in order. -/
structure RouteStore where
  routes : List Route
  delLog : List Route
  addLog : List Route
deriving DecidableEq, Repr

def RouteStore.init (routes : List Route) : RouteStore := ⟨routes, [], []⟩

/-- Modelled from the spec: one `routes.Delete(route)` call under the
error oracle `delErr`.  The call is always logged; on success every
copy of the route is removed (idempotent delete), on failure the route
set is unchanged and `true` (an error) is returned. -/
def delCall (delErr : Route → Bool) (rs : RouteStore) (r : Route) : RouteStore × Bool :=
  if delErr r then
    ({ rs with delLog := rs.delLog ++ [r] }, true)
  else
    ({ rs with routes := rs.routes.filter (fun x => decide (x ≠ r)),
               delLog := rs.delLog ++ [r] }, false)

/-- Modelled from the spec: one `routes.Add(service, proxy)` call
under the error oracle `addErr`.  The call is always logged; on
success the route is inserted unless already present (idempotent add),
on failure the route set is unchanged and `true` is returned. -/
def addCall (addErr : Route → Bool) (rs : RouteStore) (r : Route) : RouteStore × Bool :=
  if addErr r then
    ({ rs with addLog := rs.addLog ++ [r] }, true)
  else if r ∈ rs.routes then
    ({ rs with addLog := rs.addLog ++ [r] }, false)
  else
    ({ rs with routes := rs.routes ++ [r], addLog := rs.addLog ++ [r] }, false)

/-- The three keyed-cache checks of the prune pass for one route, run
in the source's order: delete when the proxy is not cached, again when
the service is not cached, again when the endpoints entry under the
service's key is not cached; stop at the first `Delete` error.  The
returned Bool is `true` iff a call errored. -/
def pruneOne (delErr : Route → Bool) (st : CtrlState) (rs : RouteStore) (r : Route) :
    RouteStore × Bool :=
  let c1 := if (cGet Pod.key st.proxies r.proxy).isSome then (rs, false)
            else delCall delErr rs r
  if c1.2 then c1 else
  let c2 := if (cGet Service.key st.services r.svc).isSome then (c1.1, false)
            else delCall delErr c1.1 r
  if c2.2 then c2 else
  if (cGet Endpoints.key st.endpoints r.svc).isSome then (c2.1, false)
  else delCall delErr c2.1 r

/-- The prune pass: iterate over the snapshot `todo` of the route list
taken at the start of `reconcile` (Go's `range c.routes.List()`),
threading the evolving store; return at the first `Delete` error. -/
def prunePass (delErr : Route → Bool) (st : CtrlState) :
    List Route → RouteStore → RouteStore × Bool
  | [], rs => (rs, false)
  | r :: rest, rs =>
    let c := pruneOne delErr st rs r
    if c.2 then c else prunePass delErr st rest c.1

/-- Inner loop of the converge pass: for one cached proxy `p`, walk
the service cache and `Add` a route for every service whose key has an
endpoints-cache entry; return at the first `Add` error. -/
def convergeSvc (addErr : Route → Bool) (st : CtrlState) (p : Pod) :
    List Service → RouteStore → RouteStore × Bool
  | [], rs => (rs, false)
  | svc :: rest, rs =>
    if (cGet Endpoints.key st.endpoints svc.key).isSome then
      let c := addCall addErr rs ⟨svc.key, p.key⟩
      if c.2 then c else convergeSvc addErr st p rest c.1
    else convergeSvc addErr st p rest rs

/-- Outer loop of the converge pass over the proxy cache. -/
def convergePass (addErr : Route → Bool) (st : CtrlState) :
    List Pod → RouteStore → RouteStore × Bool
  | [], rs => (rs, false)
  | p :: rest, rs =>
    let c := convergeSvc addErr st p st.services rs
    if c.2 then c else convergePass addErr st rest c.1

/-- `reconcile`: prune every existing route that fails a cache check,
then add a route for every (proxy, service) cache pair whose service
key has an endpoints entry; abort at the first Route Store error.  The
returned Bool is `true` iff the run returned an error. -/
def reconcile (delErr addErr : Route → Bool) (st : CtrlState) (rs : RouteStore) :
    RouteStore × Bool :=
  let pr := prunePass delErr st rs.routes rs
  if pr.2 then pr else convergePass addErr st st.proxies pr.1

/-- The error oracle of a run in which every Route Store call
succeeds. -/
def noErr : Route → Bool := fun _ => false

/-- A route is desired exactly when its proxy key is in the proxies
cache, its service key is in the services cache, and the endpoints
cache has an entry under the service key — the validity condition of
the spec's data model. -/
def desiredB (st : CtrlState) (r : Route) : Bool :=
  (cGet Pod.key st.proxies r.proxy).isSome &&
  (cGet Service.key st.services r.svc).isSome &&
  (cGet Endpoints.key st.endpoints r.svc).isSome

/-- How many of the three prune checks a route fails in state `st`. -/
def failCount (st : CtrlState) (r : Route) : Nat :=
  (if (cGet Pod.key st.proxies r.proxy).isSome then 0 else 1) +
  (if (cGet Service.key st.services r.svc).isSome then 0 else 1) +
  (if (cGet Endpoints.key st.endpoints r.svc).isSome then 0 else 1)

/-- A cache is well-formed when it holds at most one entry per key;
the upsert/delete contract preserves this. -/
def cWf {α : Type} (keyOf : α → ObjKey) (items : List α) : Prop :=
  (items.map keyOf).Nodup

/-- The number of entries a cache holds under key `k`. -/
def keyCount {α : Type} (keyOf : α → ObjKey) (items : List α) (k : ObjKey) : Nat :=
  (items.filter (fun v => decide (keyOf v = k))).length

/-! ## Cache lemmas -/

theorem cGet_isSome_iff {α : Type} (keyOf : α → ObjKey) (items : List α) (k : ObjKey) :
    (cGet keyOf items k).isSome = true ↔ ∃ v ∈ items, keyOf v = k := by
  simp [cGet, List.find?_isSome]

theorem cGet_eq_none_iff {α : Type} (keyOf : α → ObjKey) (items : List α) (k : ObjKey) :
    cGet keyOf items k = none ↔ ∀ v ∈ items, keyOf v ≠ k := by
  simp [cGet, List.find?_eq_none]

theorem cGet_mem {α : Type} {keyOf : α → ObjKey} {items : List α} {k : ObjKey} {v : α}
    (h : cGet keyOf items k = some v) : v ∈ items ∧ keyOf v = k := by
  refine ⟨List.mem_of_find?_eq_some h, ?_⟩
  have := List.find?_some h
  simpa using this

theorem mem_of_mem_cAdd {α : Type} {keyOf : α → ObjKey} {items : List α} {v x : α}
    (h : x ∈ cAdd keyOf items v) : x ∈ items ∨ x = v := by
  unfold cAdd at h
  split at h
  · rcases List.mem_map.mp h with ⟨w, hw, hwx⟩
    by_cases hk : keyOf w = keyOf v
    · right
      rw [if_pos hk] at hwx
      exact hwx.symm
    · left
      rw [if_neg hk] at hwx
      exact hwx ▸ hw
  · rcases List.mem_append.mp h with h' | h'
    · exact Or.inl h'
    · right
      simpa using h'

theorem mem_of_mem_cDelete {α : Type} {keyOf : α → ObjKey} {items : List α} {k : ObjKey} {x : α}
    (h : x ∈ cDelete keyOf items k) : x ∈ items :=
  (List.mem_filter.mp h).1

theorem cGet_cDelete_self {α : Type} (keyOf : α → ObjKey) (items : List α) (k : ObjKey) :
    cGet keyOf (cDelete keyOf items k) k = none := by
  rw [cGet_eq_none_iff]
  intro v hv
  have := (List.mem_filter.mp hv).2
  simpa using this

theorem cDelete_of_cGet_none {α : Type} {keyOf : α → ObjKey} {items : List α} {k : ObjKey}
    (h : cGet keyOf items k = none) : cDelete keyOf items k = items := by
  rw [cGet_eq_none_iff] at h
  unfold cDelete
  rw [List.filter_eq_self]
  intro v hv
  simpa using h v hv

theorem cGet_append_singleton {α : Type} {keyOf : α → ObjKey} {items : List α} {v : α}
    (h : cGet keyOf items (keyOf v) = none) :
    cGet keyOf (items ++ [v]) (keyOf v) = some v := by
  unfold cGet at h ⊢
  rw [List.find?_append, h]
  simp

theorem keyCount_eq_zero {α : Type} {keyOf : α → ObjKey} {items : List α} {k : ObjKey}
    (h : cGet keyOf items k = none) : keyCount keyOf items k = 0 := by
  rw [cGet_eq_none_iff] at h
  unfold keyCount
  rw [List.length_eq_zero, List.filter_eq_nil_iff]
  intro v hv
  simpa using h v hv

theorem keyCount_append_singleton {α : Type} {keyOf : α → ObjKey} {items : List α} {v : α}
    (h : cGet keyOf items (keyOf v) = none) :
    keyCount keyOf (items ++ [v]) (keyOf v) = 1 := by
  unfold keyCount
  rw [List.filter_append]
  have h0 : keyCount keyOf items (keyOf v) = 0 := keyCount_eq_zero h
  unfold keyCount at h0
  simp [h0]

theorem keyCount_one_of_wf {α : Type} {keyOf : α → ObjKey} {items : List α} {k : ObjKey}
    (hwf : cWf keyOf items) (h : (cGet keyOf items k).isSome = true) :
    keyCount keyOf items k = 1 := by
  induction items with
  | nil => simp [cGet] at h
  | cons a as ih =>
    have hwf' : cWf keyOf as := (List.nodup_cons.mp hwf).2
    by_cases ha : keyOf a = k
    · have hnone : cGet keyOf as k = none := by
        rw [cGet_eq_none_iff]
        intro v hv hvk
        exact (List.nodup_cons.mp hwf).1 (ha ▸ hvk ▸ List.mem_map_of_mem keyOf hv)
      have h0 : keyCount keyOf as k = 0 := keyCount_eq_zero hnone
      unfold keyCount at h0 ⊢
      simp [List.filter_cons, ha, h0]
    · have h' : (cGet keyOf as k).isSome = true := by
        rw [cGet_isSome_iff] at h ⊢
        rcases h with ⟨v, hv, hvk⟩
        rcases List.mem_cons.mp hv with rfl | hv'
        · exact absurd hvk ha
        · exact ⟨v, hv', hvk⟩
      unfold keyCount
      rw [List.filter_cons]
      have := ih hwf' h'
      unfold keyCount at this
      simp [ha, this]

theorem cAdd_append {α : Type} {keyOf : α → ObjKey} {items : List α} {v : α}
    (h : cGet keyOf items (keyOf v) = none) : cAdd keyOf items v = items ++ [v] := by
  simp [cAdd, h]

/-! ## Event sequences delivered by the informers -/

/-- A notification for the pod informer: add, update or delete. -/
inductive PodEvent where
  | add (p : Pod)
  | update (old cur : Pod)
  | del (p : Pod)
deriving DecidableEq, Repr

/-- Dispatch one pod notification to its registered handler. -/
def applyPodEvent (nodeAddr : NodeAddr) (st : CtrlState) : PodEvent → CtrlState
  | .add p => podAdd nodeAddr st p
  | .update o c => podUpdate nodeAddr st o c
  | .del p => podDelete st p

/-- Run a sequence of pod notifications. -/
def applyPodEvents (nodeAddr : NodeAddr) (st : CtrlState) (evs : List PodEvent) : CtrlState :=
  evs.foldl (applyPodEvent nodeAddr) st

/-- A notification for the endpoints informer: add, update or delete. -/
inductive EpEvent where
  | add (e : Endpoints)
  | update (old cur : Endpoints)
  | del (e : Endpoints)
deriving DecidableEq, Repr

/-- Dispatch one endpoints notification to its registered handler. -/
def applyEpEvent (st : CtrlState) : EpEvent → CtrlState
  | .add e => endpointsAdd st e
  | .update o c => endpointsUpdate st o c
  | .del e => endpointsDelete st e

/-- Run a sequence of endpoints notifications. -/
def applyEpEvents (st : CtrlState) (evs : List EpEvent) : CtrlState :=
  evs.foldl applyEpEvent st

/-! ## Handler-level invariant preservation lemmas -/

theorem podAdd_hostIP_inv {nodeAddr : NodeAddr} {st : CtrlState} (pod : Pod)
    (hinv : ∀ q ∈ st.proxies, q.hostIP = nodeAddr.to4String) :
    ∀ q ∈ (podAdd nodeAddr st pod).proxies, q.hostIP = nodeAddr.to4String := by
  unfold podAdd
  split
  · exact hinv
  · split
    · exact hinv
    · next hip =>
      have hpod : pod.hostIP = nodeAddr.to4String := by
        by_contra hne
        exact hip hne
      split
      · split
        · exact hinv
        · intro q hq
          rcases mem_of_mem_cAdd hq with h | rfl
          · exact hinv q h
          · exact hpod
      · split
        · intro q hq
          exact hinv q (mem_of_mem_cDelete hq)
        · exact hinv

theorem podDelete_hostIP_inv {nodeAddr : NodeAddr} {st : CtrlState} (pod : Pod)
    (hinv : ∀ q ∈ st.proxies, q.hostIP = nodeAddr.to4String) :
    ∀ q ∈ (podDelete st pod).proxies, q.hostIP = nodeAddr.to4String := by
  unfold podDelete
  split
  · intro q hq
    exact hinv q (mem_of_mem_cDelete hq)
  · exact hinv

theorem applyPodEvents_hostIP_inv (nodeAddr : NodeAddr) (evs : List PodEvent) :
    ∀ st : CtrlState, (∀ q ∈ st.proxies, q.hostIP = nodeAddr.to4String) →
      ∀ q ∈ (applyPodEvents nodeAddr st evs).proxies, q.hostIP = nodeAddr.to4String := by
  induction evs with
  | nil => intro st hinv; exact hinv
  | cons ev rest ih =>
    intro st hinv
    have hstep : ∀ q ∈ (applyPodEvent nodeAddr st ev).proxies,
        q.hostIP = nodeAddr.to4String := by
      cases ev with
      | add p => exact podAdd_hostIP_inv p hinv
      | update o c => exact podAdd_hostIP_inv c hinv
      | del p => exact podDelete_hostIP_inv p hinv
    exact ih (applyPodEvent nodeAddr st ev) hstep

theorem endpointsAdd_ready_inv {st : CtrlState} (e : Endpoints)
    (hinv : ∀ x ∈ st.endpoints, endpointsReady x = true) :
    ∀ x ∈ (endpointsAdd st e).endpoints, endpointsReady x = true := by
  unfold endpointsAdd
  split
  · next hready =>
    split
    · exact hinv
    · intro x hx
      rcases mem_of_mem_cAdd hx with h | rfl
      · exact hinv x h
      · exact hready
  · split
    · intro x hx
      exact hinv x (mem_of_mem_cDelete hx)
    · exact hinv

theorem endpointsDelete_ready_inv {st : CtrlState} (e : Endpoints)
    (hinv : ∀ x ∈ st.endpoints, endpointsReady x = true) :
    ∀ x ∈ (endpointsDelete st e).endpoints, endpointsReady x = true := by
  unfold endpointsDelete
  split
  · intro x hx
    exact hinv x (mem_of_mem_cDelete hx)
  · exact hinv

theorem applyEpEvents_ready_inv (evs : List EpEvent) :
    ∀ st : CtrlState, (∀ x ∈ st.endpoints, endpointsReady x = true) →
      ∀ x ∈ (applyEpEvents st evs).endpoints, endpointsReady x = true := by
  induction evs with
  | nil => intro st hinv; exact hinv
  | cons ev rest ih =>
    intro st hinv
    have hstep : ∀ x ∈ (applyEpEvent st ev).endpoints, endpointsReady x = true := by
      cases ev with
      | add e => exact endpointsAdd_ready_inv e hinv
      | update o c => exact endpointsAdd_ready_inv c hinv
      | del e => exact endpointsDelete_ready_inv e hinv
    exact ih (applyEpEvent st ev) hstep

/-! ## Prune- and converge-pass lemmas -/

theorem pruneOne_noErr_snd (st : CtrlState) (rs : RouteStore) (r : Route) :
    (pruneOne noErr st rs r).2 = false := by
  by_cases hA : (cGet Pod.key st.proxies r.proxy).isSome = true <;>
  by_cases hB : (cGet Service.key st.services r.svc).isSome = true <;>
  by_cases hC : (cGet Endpoints.key st.endpoints r.svc).isSome = true <;>
  simp [pruneOne, delCall, noErr, hA, hB, hC]

theorem pruneOne_noErr_mem (st : CtrlState) (rs : RouteStore) (r x : Route) :
    x ∈ (pruneOne noErr st rs r).1.routes ↔
      x ∈ rs.routes ∧ (desiredB st r = true ∨ x ≠ r) := by
  by_cases hA : (cGet Pod.key st.proxies r.proxy).isSome = true <;>
  by_cases hB : (cGet Service.key st.services r.svc).isSome = true <;>
  by_cases hC : (cGet Endpoints.key st.endpoints r.svc).isSome = true <;>
  simp [pruneOne, delCall, noErr, desiredB, hA, hB, hC, List.mem_filter]

theorem pruneOne_noErr_delLog (st : CtrlState) (rs : RouteStore) (r : Route) :
    (pruneOne noErr st rs r).1.delLog = rs.delLog ++ List.replicate (failCount st r) r := by
  by_cases hA : (cGet Pod.key st.proxies r.proxy).isSome = true <;>
  by_cases hB : (cGet Service.key st.services r.svc).isSome = true <;>
  by_cases hC : (cGet Endpoints.key st.endpoints r.svc).isSome = true <;>
  simp [pruneOne, delCall, noErr, failCount, hA, hB, hC, List.replicate_succ]

theorem pruneOne_addLog (delErr : Route → Bool) (st : CtrlState) (rs : RouteStore)
    (r : Route) : (pruneOne delErr st rs r).1.addLog = rs.addLog := by
  by_cases hA : (cGet Pod.key st.proxies r.proxy).isSome = true <;>
  by_cases hB : (cGet Service.key st.services r.svc).isSome = true <;>
  by_cases hC : (cGet Endpoints.key st.endpoints r.svc).isSome = true <;>
  by_cases hd : delErr r = true <;>
  simp [pruneOne, delCall, hA, hB, hC, hd]

theorem prunePass_noErr_snd (st : CtrlState) (todo : List Route) :
    ∀ rs : RouteStore, (prunePass noErr st todo rs).2 = false := by
  induction todo with
  | nil => intro rs; simp [prunePass]
  | cons r rest ih =>
    intro rs
    simp [prunePass, pruneOne_noErr_snd, ih]

theorem prunePass_noErr_mem (st : CtrlState) (todo : List Route) :
    ∀ (rs : RouteStore) (x : Route),
      (x ∈ (prunePass noErr st todo rs).1.routes ↔
        x ∈ rs.routes ∧ (desiredB st x = true ∨ x ∉ todo)) := by
  induction todo with
  | nil => intro rs x; simp [prunePass]
  | cons r rest ih =>
    intro rs x
    rw [prunePass]
    simp only [pruneOne_noErr_snd, Bool.false_eq_true, if_false]
    rw [ih, pruneOne_noErr_mem]
    by_cases hxr : x = r
    · subst hxr
      simp only [List.mem_cons]
      tauto
    · simp only [List.mem_cons, hxr]
      tauto

theorem prunePass_noErr_delLog (st : CtrlState) (todo : List Route) :
    ∀ rs : RouteStore, (prunePass noErr st todo rs).1.delLog =
      rs.delLog ++ todo.flatMap (fun r => List.replicate (failCount st r) r) := by
  induction todo with
  | nil => intro rs; simp [prunePass]
  | cons r rest ih =>
    intro rs
    rw [prunePass]
    simp only [pruneOne_noErr_snd, Bool.false_eq_true, if_false]
    rw [ih, pruneOne_noErr_delLog, List.flatMap_cons, List.append_assoc]

theorem prunePass_addLog (delErr : Route → Bool) (st : CtrlState) (todo : List Route) :
    ∀ rs : RouteStore, (prunePass delErr st todo rs).1.addLog = rs.addLog := by
  induction todo with
  | nil => intro rs; simp [prunePass]
  | cons r rest ih =>
    intro rs
    rw [prunePass]
    by_cases hc : (pruneOne delErr st rs r).2 = true
    · simp [hc, pruneOne_addLog]
    · rw [if_neg hc, ih, pruneOne_addLog]

theorem addCall_noErr_snd (rs : RouteStore) (r : Route) :
    (addCall noErr rs r).2 = false := by
  by_cases h : r ∈ rs.routes <;> simp [addCall, noErr, h]

theorem addCall_noErr_mem (rs : RouteStore) (r x : Route) :
    x ∈ (addCall noErr rs r).1.routes ↔ x ∈ rs.routes ∨ x = r := by
  by_cases h : r ∈ rs.routes
  · simp only [addCall, noErr, Bool.false_eq_true, if_false, if_pos h]
    constructor
    · exact Or.inl
    · rintro (hx | rfl)
      · exact hx
      · exact h
  · simp [addCall, noErr, h]

theorem addCall_delLog (addErr : Route → Bool) (rs : RouteStore) (r : Route) :
    (addCall addErr rs r).1.delLog = rs.delLog := by
  by_cases he : addErr r = true <;> by_cases h : r ∈ rs.routes <;>
  simp [addCall, he, h]

theorem convergeSvc_noErr_snd (st : CtrlState) (p : Pod) (svcs : List Service) :
    ∀ rs : RouteStore, (convergeSvc noErr st p svcs rs).2 = false := by
  induction svcs with
  | nil => intro rs; simp [convergeSvc]
  | cons svc rest ih =>
    intro rs
    by_cases hc : (cGet Endpoints.key st.endpoints svc.key).isSome = true <;>
    simp [convergeSvc, hc, addCall_noErr_snd, ih]

theorem convergeSvc_noErr_mem (st : CtrlState) (p : Pod) (svcs : List Service) :
    ∀ (rs : RouteStore) (x : Route),
      (x ∈ (convergeSvc noErr st p svcs rs).1.routes ↔
        x ∈ rs.routes ∨ ∃ svc ∈ svcs,
          (cGet Endpoints.key st.endpoints svc.key).isSome = true ∧
          x = Route.mk svc.key p.key) := by
  induction svcs with
  | nil => intro rs x; simp [convergeSvc]
  | cons svc rest ih =>
    intro rs x
    by_cases hc : (cGet Endpoints.key st.endpoints svc.key).isSome = true
    · rw [convergeSvc]
      simp only [hc, if_true, addCall_noErr_snd, Bool.false_eq_true, if_false]
      rw [ih, addCall_noErr_mem]
      simp only [List.mem_cons]
      constructor
      · rintro ((hx | rfl) | ⟨s, hs, hse, rfl⟩)
        · exact Or.inl hx
        · exact Or.inr ⟨svc, Or.inl rfl, hc, rfl⟩
        · exact Or.inr ⟨s, Or.inr hs, hse, rfl⟩
      · rintro (hx | ⟨s, hs | hs, hse, rfl⟩)
        · exact Or.inl (Or.inl hx)
        · subst hs
          exact Or.inl (Or.inr rfl)
        · exact Or.inr ⟨s, hs, hse, rfl⟩
    · rw [convergeSvc, if_neg hc, ih]
      simp only [List.mem_cons]
      constructor
      · rintro (hx | ⟨s, hs, hse, rfl⟩)
        · exact Or.inl hx
        · exact Or.inr ⟨s, Or.inr hs, hse, rfl⟩
      · rintro (hx | ⟨s, hs | hs, hse, rfl⟩)
        · exact Or.inl hx
        · subst hs
          exact absurd hse hc
        · exact Or.inr ⟨s, hs, hse, rfl⟩

theorem convergeSvc_delLog (addErr : Route → Bool) (st : CtrlState) (p : Pod)
    (svcs : List Service) :
    ∀ rs : RouteStore, (convergeSvc addErr st p svcs rs).1.delLog = rs.delLog := by
  induction svcs with
  | nil => intro rs; simp [convergeSvc]
  | cons svc rest ih =>
    intro rs
    rw [convergeSvc]
    by_cases hc : (cGet Endpoints.key st.endpoints svc.key).isSome = true
    · simp only [hc, if_true]
      by_cases he : (addCall addErr rs ⟨svc.key, p.key⟩).2 = true
      · simp [he, addCall_delLog]
      · rw [if_neg he, ih, addCall_delLog]
    · simp only [hc, if_false]
      exact ih rs

theorem convergePass_noErr_snd (st : CtrlState) (pods : List Pod) :
    ∀ rs : RouteStore, (convergePass noErr st pods rs).2 = false := by
  induction pods with
  | nil => intro rs; simp [convergePass]
  | cons p rest ih =>
    intro rs
    simp [convergePass, convergeSvc_noErr_snd, ih]

theorem convergePass_noErr_mem (st : CtrlState) (pods : List Pod) :
    ∀ (rs : RouteStore) (x : Route),
      (x ∈ (convergePass noErr st pods rs).1.routes ↔
        x ∈ rs.routes ∨ ∃ p ∈ pods, ∃ svc ∈ st.services,
          (cGet Endpoints.key st.endpoints svc.key).isSome = true ∧
          x = Route.mk svc.key p.key) := by
  induction pods with
  | nil => intro rs x; simp [convergePass]
  | cons p rest ih =>
    intro rs x
    rw [convergePass]
    simp only [convergeSvc_noErr_snd, Bool.false_eq_true, if_false]
    rw [ih, convergeSvc_noErr_mem]
    simp only [List.mem_cons]
    constructor
    · rintro ((hx | ⟨s, hs, hse, rfl⟩) | ⟨q, hq, s, hs, hse, rfl⟩)
      · exact Or.inl hx
      · exact Or.inr ⟨p, Or.inl rfl, s, hs, hse, rfl⟩
      · exact Or.inr ⟨q, Or.inr hq, s, hs, hse, rfl⟩
    · rintro (hx | ⟨q, hq | hq, s, hs, hse, rfl⟩)
      · exact Or.inl (Or.inl hx)
      · subst hq
        exact Or.inl (Or.inr ⟨s, hs, hse, rfl⟩)
      · exact Or.inr ⟨q, hq, s, hs, hse, rfl⟩

theorem convergePass_delLog (addErr : Route → Bool) (st : CtrlState) (pods : List Pod) :
    ∀ rs : RouteStore, (convergePass addErr st pods rs).1.delLog = rs.delLog := by
  induction pods with
  | nil => intro rs; simp [convergePass]
  | cons p rest ih =>
    intro rs
    rw [convergePass]
    by_cases he : (convergeSvc addErr st p st.services rs).2 = true
    · simp [he, convergeSvc_delLog]
    · rw [if_neg he, ih, convergeSvc_delLog]

theorem reconcile_noErr_eq (st : CtrlState) (rs : RouteStore) :
    reconcile noErr noErr st rs =
      convergePass noErr st st.proxies (prunePass noErr st rs.routes rs).1 := by
  simp [reconcile, prunePass_noErr_snd]

theorem failCount_le_three (st : CtrlState) (r : Route) : failCount st r ≤ 3 := by
  unfold failCount
  split <;> split <;> split <;> simp

theorem failCount_eq_zero_of_desired {st : CtrlState} {r : Route}
    (h : desiredB st r = true) : failCount st r = 0 := by
  unfold desiredB at h
  simp only [Bool.and_eq_true] at h
  unfold failCount
  rw [if_pos h.1.1, if_pos h.1.2, if_pos h.2]

theorem flatMap_replicate_all_zero (f : Route → Nat) :
    ∀ l : List Route, (∀ x ∈ l, f x = 0) →
      l.flatMap (fun x => List.replicate (f x) x) = [] := by
  intro l
  induction l with
  | nil => intro _; simp
  | cons a as ih =>
    intro h0
    rw [List.flatMap_cons, h0 a (List.mem_cons_self a as), List.replicate_zero,
      List.nil_append]
    exact ih (fun x hx => h0 x (List.mem_cons_of_mem a hx))

theorem flatMap_replicate_single (f : Route → Nat) (r : Route) :
    ∀ l : List Route, l.Nodup → r ∈ l → f r = 1 → (∀ x ∈ l, x ≠ r → f x = 0) →
      l.flatMap (fun x => List.replicate (f x) x) = [r] := by
  intro l
  induction l with
  | nil => intro _ hr; simp at hr
  | cons a as ih =>
    intro hnd hr hfr h0
    rcases List.mem_cons.mp hr with rfl | hr'
    · rw [List.flatMap_cons, hfr]
      have hras : r ∉ as := (List.nodup_cons.mp hnd).1
      have hz : as.flatMap (fun x => List.replicate (f x) x) = [] :=
        flatMap_replicate_all_zero f as (fun x hx =>
          h0 x (List.mem_cons_of_mem r hx) (fun hxr => hras (hxr ▸ hx)))
      rw [hz]
      simp [List.replicate]
    · have ha : a ≠ r := by
        rintro rfl
        exact (List.nodup_cons.mp hnd).1 hr'
      rw [List.flatMap_cons, h0 a (List.mem_cons_self a as) ha, List.replicate_zero,
        List.nil_append]
      exact ih (List.nodup_cons.mp hnd).2 hr' hfr
        (fun x hx hxr => h0 x (List.mem_cons_of_mem a hx) hxr)

theorem count_flatMap_replicate (f : Route → Nat) (r : Route) :
    ∀ l : List Route, l.Nodup → r ∈ l →
      (l.flatMap (fun x => List.replicate (f x) x)).count r = f r := by
  intro l
  induction l with
  | nil => intro _ hr; simp at hr
  | cons a as ih =>
    intro hnd hr
    rw [List.flatMap_cons, List.count_append]
    rcases List.mem_cons.mp hr with rfl | hr'
    · have hras : r ∉ as := (List.nodup_cons.mp hnd).1
      have h0 : (as.flatMap (fun x => List.replicate (f x) x)).count r = 0 := by
        rw [List.count_eq_zero]
        intro hmem
        rcases List.mem_flatMap.mp hmem with ⟨x, hx, hrx⟩
        rcases List.mem_replicate.mp hrx with ⟨-, rfl⟩
        exact hras hx
      rw [h0, List.count_replicate]
      simp
    · have ha : a ≠ r := by
        rintro rfl
        exact (List.nodup_cons.mp hnd).1 hr'
      rw [List.count_replicate, if_neg (by simpa using ha), Nat.zero_add]
      exact ih (List.nodup_cons.mp hnd).2 hr'

theorem pruneOne_err (delErr : Route → Bool) (st : CtrlState) (rs : RouteStore) (r : Route)
    (h : (pruneOne delErr st rs r).2 = true) :
    delErr r = true ∧ (pruneOne delErr st rs r).1.delLog = rs.delLog ++ [r] := by
  by_cases hd : delErr r = true
  · refine ⟨hd, ?_⟩
    by_cases hA : (cGet Pod.key st.proxies r.proxy).isSome = true <;>
    by_cases hB : (cGet Service.key st.services r.svc).isSome = true <;>
    by_cases hC : (cGet Endpoints.key st.endpoints r.svc).isSome = true <;>
    simp [pruneOne, delCall, hA, hB, hC, hd] at h ⊢
  · exfalso
    by_cases hA : (cGet Pod.key st.proxies r.proxy).isSome = true <;>
    by_cases hB : (cGet Service.key st.services r.svc).isSome = true <;>
    by_cases hC : (cGet Endpoints.key st.endpoints r.svc).isSome = true <;>
    simp [pruneOne, delCall, hA, hB, hC, hd] at h

theorem pruneOne_ok_mem (delErr : Route → Bool) (st : CtrlState) (rs : RouteStore)
    (r : Route) (h : (pruneOne delErr st rs r).2 = false) :
    ∀ d ∈ (pruneOne delErr st rs r).1.delLog, d ∈ rs.delLog ∨ delErr d = false := by
  intro d hmem
  by_cases hd : delErr r = true
  · left
    by_cases hA : (cGet Pod.key st.proxies r.proxy).isSome = true <;>
    by_cases hB : (cGet Service.key st.services r.svc).isSome = true <;>
    by_cases hC : (cGet Endpoints.key st.endpoints r.svc).isSome = true <;>
    simp [pruneOne, delCall, hA, hB, hC, hd] at h hmem <;>
    exact hmem
  · have hd' : delErr r = false := by
      simpa using hd
    by_cases hA : (cGet Pod.key st.proxies r.proxy).isSome = true <;>
    by_cases hB : (cGet Service.key st.services r.svc).isSome = true <;>
    by_cases hC : (cGet Endpoints.key st.endpoints r.svc).isSome = true <;>
    simp [pruneOne, delCall, hA, hB, hC, hd'] at hmem <;>
    first
      | exact Or.inl hmem
      | (rcases hmem with hmem | rfl
         · exact Or.inl hmem
         · exact Or.inr hd')

theorem prunePass_err (delErr : Route → Bool) (st : CtrlState) :
    ∀ (todo : List Route) (rs : RouteStore),
      (∀ d ∈ rs.delLog, delErr d = false) →
      (prunePass delErr st todo rs).2 = true →
      ∃ ds e, (prunePass delErr st todo rs).1.delLog = ds ++ [e] ∧ delErr e = true ∧
        ∀ d ∈ ds, delErr d = false := by
  intro todo
  induction todo with
  | nil =>
    intro rs hall h
    simp [prunePass] at h
  | cons r rest ih =>
    intro rs hall h
    by_cases hc : (pruneOne delErr st rs r).2 = true
    · have herr := pruneOne_err delErr st rs r hc
      refine ⟨rs.delLog, r, ?_, herr.1, hall⟩
      rw [prunePass, if_pos hc, herr.2]
    · have hc' : (pruneOne delErr st rs r).2 = false := by
        simpa using hc
      have hall' : ∀ d ∈ (pruneOne delErr st rs r).1.delLog, delErr d = false := by
        intro d hd
        rcases pruneOne_ok_mem delErr st rs r hc' d hd with h' | h'
        · exact hall d h'
        · exact h'
      have h' : (prunePass delErr st rest (pruneOne delErr st rs r).1).2 = true := by
        rw [prunePass, if_neg hc] at h
        exact h
      have := ih (pruneOne delErr st rs r).1 hall' h'
      rw [prunePass, if_neg hc]
      exact this

/-! ## Claim theorems -/

/-- C2 counterexample: a Service add-or-update notification whose
object has an empty external-IP list does NOT evict the service from
the services cache and raises no dirty signal, even when the service
is currently cached — `serviceAdd` returns before any cache check when
the external-IP list is empty, so the state is unchanged. -/
theorem serviceAdd_not_ready_cached_cex :
    (cGet Service.key [Service.mk "default" "web" ["1.2.3.4"]]
        (Service.key (Service.mk "default" "web" []))).isSome = true ∧
    serviceAdd ⟨[], [⟨"default", "web", ["1.2.3.4"]⟩], [], 0⟩ ⟨"default", "web", []⟩ =
      ⟨[], [⟨"default", "web", ["1.2.3.4"]⟩], [], 0⟩ := by
  decide

/-- C2 amended: for every Service add-or-update notification whose
object has an empty external-IP list, the handler is a complete no-op:
it neither inserts nor removes anything (even when the service is
currently cached) and raises no dirty signal. -/
theorem serviceAdd_empty_ips_noop (st : CtrlState) (svc : Service)
    (h : svc.externalIPs = []) : serviceAdd st svc = st := by
  simp [serviceAdd, h]

/-- Witness for `serviceAdd_empty_ips_noop` at a concrete cached
service with an empty external-IP list. -/
theorem serviceAdd_empty_ips_noop_witness :
    serviceAdd ⟨[], [⟨"default", "web", ["1.2.3.4"]⟩], [], 0⟩ ⟨"default", "web", []⟩ =
      ⟨[], [⟨"default", "web", ["1.2.3.4"]⟩], [], 0⟩ :=
  serviceAdd_empty_ips_noop ⟨[], [⟨"default", "web", ["1.2.3.4"]⟩], [], 0⟩
    ⟨"default", "web", []⟩ rfl

/-- C3 counterexample: deleting a Service that is NOT in the services
cache is not a no-op — `serviceDelete` has no cached-presence check,
so it still raises a dirty signal (the state changes: dirty goes from
0 to 1). -/
theorem serviceDelete_uncached_cex :
    cGet Service.key ([] : List Service) (Service.key (Service.mk "default" "web" [])) =
      none ∧
    serviceDelete ⟨[], [], [], 0⟩ ⟨"default", "web", []⟩ ≠ ⟨[], [], [], 0⟩ ∧
    (serviceDelete ⟨[], [], [], 0⟩ ⟨"default", "web", []⟩).dirty = 1 := by
  decide

/-- C3 amended: for every Service delete notification the handler
unconditionally removes the service's key from the cache and
unconditionally raises a dirty signal; when the service is not cached
the cache contents are unchanged, but a dirty signal is still
raised. -/
theorem serviceDelete_unconditional (st : CtrlState) (svc : Service) :
    (serviceDelete st svc).dirty = st.dirty + 1 ∧
    cGet Service.key (serviceDelete st svc).services svc.key = none ∧
    (cGet Service.key st.services svc.key = none →
      (serviceDelete st svc).services = st.services) := by
  refine ⟨rfl, ?_, ?_⟩
  · exact cGet_cDelete_self Service.key st.services svc.key
  · intro h
    exact cDelete_of_cGet_none h

/-- Witness for `serviceDelete_unconditional` at a concrete uncached
service. -/
theorem serviceDelete_unconditional_witness :
    (serviceDelete ⟨[], [], [], 0⟩ ⟨"default", "web", []⟩).dirty = 0 + 1 ∧
    cGet Service.key (serviceDelete ⟨[], [], [], 0⟩ ⟨"default", "web", []⟩).services
      (Service.key ⟨"default", "web", []⟩) = none ∧
    (cGet Service.key ([] : List Service) (Service.key (⟨"default", "web", []⟩ : Service)) =
        none →
      (serviceDelete ⟨[], [], [], 0⟩ ⟨"default", "web", []⟩).services = []) :=
  serviceDelete_unconditional ⟨[], [], [], 0⟩ ⟨"default", "web", []⟩

/-- C6: for each of the three object kinds, invoking the add-or-update
handler twice in succession with the same ready object (one passing
the kind's readiness filter) leaves exactly one cache entry under that
object's key, and the second invocation is a complete no-op: no cache
mutation and no dirty signal. -/
theorem addPath_idempotent (nodeAddr : NodeAddr) (st : CtrlState)
    (pod : Pod) (svc : Service) (e : Endpoints)
    (hwfp : cWf Pod.key st.proxies) (hwfs : cWf Service.key st.services)
    (hwfe : cWf Endpoints.key st.endpoints)
    (hnm : goHasPfx kubeProxyPfx pod.nm = true) (hns : pod.ns = kubeProxyNs)
    (hip : pod.hostIP = nodeAddr.to4String) (hrdy : pod.ready = true)
    (hsvc : svc.externalIPs ≠ []) (hep : endpointsReady e = true) :
    (podAdd nodeAddr (podAdd nodeAddr st pod) pod = podAdd nodeAddr st pod ∧
      keyCount Pod.key (podAdd nodeAddr st pod).proxies pod.key = 1) ∧
    (serviceAdd (serviceAdd st svc) svc = serviceAdd st svc ∧
      keyCount Service.key (serviceAdd st svc).services svc.key = 1) ∧
    (endpointsAdd (endpointsAdd st e) e = endpointsAdd st e ∧
      keyCount Endpoints.key (endpointsAdd st e).endpoints e.key = 1) := by
  have hpeval : ∀ s : CtrlState, podAdd nodeAddr s pod =
      if (cGet Pod.key s.proxies pod.key).isSome then s
      else { s with proxies := cAdd Pod.key s.proxies pod, dirty := s.dirty + 1 } := by
    intro s
    unfold podAdd
    rw [if_neg (by simp [hnm, hns]), if_neg (by simp [hip]), if_pos hrdy]
  have hseval : ∀ s : CtrlState, serviceAdd s svc =
      if (cGet Service.key s.services svc.key).isSome then s
      else { s with services := cAdd Service.key s.services svc, dirty := s.dirty + 1 } := by
    intro s
    unfold serviceAdd
    rw [if_neg (by simp [hsvc])]
  have heeval : ∀ s : CtrlState, endpointsAdd s e =
      if (cGet Endpoints.key s.endpoints e.key).isSome then s
      else { s with endpoints := cAdd Endpoints.key s.endpoints e, dirty := s.dirty + 1 } := by
    intro s
    unfold endpointsAdd
    rw [if_pos hep]
  refine ⟨?_, ?_, ?_⟩
  · by_cases h : (cGet Pod.key st.proxies pod.key).isSome = true
    · rw [hpeval st, if_pos h, hpeval st, if_pos h]
      exact ⟨rfl, keyCount_one_of_wf hwfp h⟩
    · have hnone : cGet Pod.key st.proxies pod.key = none :=
        Option.not_isSome_iff_eq_none.mp h
      have happ : cAdd Pod.key st.proxies pod = st.proxies ++ [pod] := cAdd_append hnone
      have hget1 : cGet Pod.key (st.proxies ++ [pod]) pod.key = some pod :=
        cGet_append_singleton hnone
      rw [hpeval st, if_neg h, hpeval _, happ]
      constructor
      · simp [hget1]
      · simpa using keyCount_append_singleton hnone
  · by_cases h : (cGet Service.key st.services svc.key).isSome = true
    · rw [hseval st, if_pos h, hseval st, if_pos h]
      exact ⟨rfl, keyCount_one_of_wf hwfs h⟩
    · have hnone : cGet Service.key st.services svc.key = none :=
        Option.not_isSome_iff_eq_none.mp h
      have happ : cAdd Service.key st.services svc = st.services ++ [svc] :=
        cAdd_append hnone
      have hget1 : cGet Service.key (st.services ++ [svc]) svc.key = some svc :=
        cGet_append_singleton hnone
      rw [hseval st, if_neg h, hseval _, happ]
      constructor
      · simp [hget1]
      · simpa using keyCount_append_singleton hnone
  · by_cases h : (cGet Endpoints.key st.endpoints e.key).isSome = true
    · rw [heeval st, if_pos h, heeval st, if_pos h]
      exact ⟨rfl, keyCount_one_of_wf hwfe h⟩
    · have hnone : cGet Endpoints.key st.endpoints e.key = none :=
        Option.not_isSome_iff_eq_none.mp h
      have happ : cAdd Endpoints.key st.endpoints e = st.endpoints ++ [e] :=
        cAdd_append hnone
      have hget1 : cGet Endpoints.key (st.endpoints ++ [e]) e.key = some e :=
        cGet_append_singleton hnone
      rw [heeval st, if_neg h, heeval _, happ]
      constructor
      · simp [hget1]
      · simpa using keyCount_append_singleton hnone

/-- Witness for `addPath_idempotent`: the empty controller state, a
ready kube-proxy pod on node 1.2.3.4, a service with one external IP
and an endpoints object with one ready address. -/
theorem addPath_idempotent_witness :
    (podAdd (NodeAddr.v4 1 2 3 4)
        (podAdd (NodeAddr.v4 1 2 3 4) CtrlState.empty
          ⟨"kube-system", "kube-proxy-abc", "1.2.3.4", true⟩)
        ⟨"kube-system", "kube-proxy-abc", "1.2.3.4", true⟩ =
      podAdd (NodeAddr.v4 1 2 3 4) CtrlState.empty
        ⟨"kube-system", "kube-proxy-abc", "1.2.3.4", true⟩ ∧
      keyCount Pod.key
        (podAdd (NodeAddr.v4 1 2 3 4) CtrlState.empty
          ⟨"kube-system", "kube-proxy-abc", "1.2.3.4", true⟩).proxies
        (Pod.key ⟨"kube-system", "kube-proxy-abc", "1.2.3.4", true⟩) = 1) ∧
    (serviceAdd (serviceAdd CtrlState.empty ⟨"default", "web", ["1.2.3.4"]⟩)
        ⟨"default", "web", ["1.2.3.4"]⟩ =
      serviceAdd CtrlState.empty ⟨"default", "web", ["1.2.3.4"]⟩ ∧
      keyCount Service.key
        (serviceAdd CtrlState.empty ⟨"default", "web", ["1.2.3.4"]⟩).services
        (Service.key ⟨"default", "web", ["1.2.3.4"]⟩) = 1) ∧
    (endpointsAdd (endpointsAdd CtrlState.empty ⟨"default", "web", [["10.0.0.1"]]⟩)
        ⟨"default", "web", [["10.0.0.1"]]⟩ =
      endpointsAdd CtrlState.empty ⟨"default", "web", [["10.0.0.1"]]⟩ ∧
      keyCount Endpoints.key
        (endpointsAdd CtrlState.empty ⟨"default", "web", [["10.0.0.1"]]⟩).endpoints
        (Endpoints.key ⟨"default", "web", [["10.0.0.1"]]⟩) = 1) :=
  addPath_idempotent (NodeAddr.v4 1 2 3 4) CtrlState.empty
    ⟨"kube-system", "kube-proxy-abc", "1.2.3.4", true⟩
    ⟨"default", "web", ["1.2.3.4"]⟩ ⟨"default", "web", [["10.0.0.1"]]⟩
    List.nodup_nil List.nodup_nil List.nodup_nil
    (by decide) (by decide) (by decide) (by decide) (by decide) (by decide)

/-- C7: starting from an empty proxies cache, after any sequence of
pod add, update and delete notifications, every pod in the proxies
cache reports a host IP equal to the (IPv4) node address supplied at
construction — each handler preserves the invariant. -/
theorem proxies_host_address_invariant (a b c d : Nat) (evs : List PodEvent) (p : Pod)
    (hp : p ∈ (applyPodEvents (NodeAddr.v4 a b c d) CtrlState.empty evs).proxies) :
    p.hostIP = (NodeAddr.v4 a b c d).to4String :=
  applyPodEvents_hostIP_inv (NodeAddr.v4 a b c d) evs CtrlState.empty
    (by intro q hq; simp [CtrlState.empty] at hq) p hp

/-- Witness for `proxies_host_address_invariant`: one add of a ready
kube-proxy pod on node 1.2.3.4. -/
theorem proxies_host_address_invariant_witness :
    (Pod.mk "kube-system" "kube-proxy-abc" "1.2.3.4" true).hostIP =
      (NodeAddr.v4 1 2 3 4).to4String :=
  proxies_host_address_invariant 1 2 3 4
    [PodEvent.add ⟨"kube-system", "kube-proxy-abc", "1.2.3.4", true⟩]
    ⟨"kube-system", "kube-proxy-abc", "1.2.3.4", true⟩ (by decide)

/-- C8: starting from an empty endpoints cache, after any sequence of
endpoints add, update and delete notifications, every Endpoints object
in the endpoints cache has at least one subset with a non-empty
address list — each handler preserves the invariant. -/
theorem endpoints_ready_invariant (evs : List EpEvent) (e : Endpoints)
    (he : e ∈ (applyEpEvents CtrlState.empty evs).endpoints) :
    ∃ s ∈ e.subsets, s ≠ [] := by
  have hready : endpointsReady e = true :=
    applyEpEvents_ready_inv evs CtrlState.empty
      (by intro x hx; simp [CtrlState.empty] at hx) e he
  unfold endpointsReady at hready
  rcases List.any_eq_true.mp hready with ⟨s, hs, hlen⟩
  refine ⟨s, hs, ?_⟩
  intro hnil
  simp [hnil] at hlen

/-- Witness for `endpoints_ready_invariant`: one add of an Endpoints
object with a single ready address. -/
theorem endpoints_ready_invariant_witness :
    ∃ s ∈ (Endpoints.mk "default" "web" [["10.0.0.1"]]).subsets, s ≠ [] :=
  endpoints_ready_invariant [EpEvent.add ⟨"default", "web", [["10.0.0.1"]]⟩]
    ⟨"default", "web", [["10.0.0.1"]]⟩ (by decide)

/-- C10: when the node host address supplied at construction has no
IPv4 form, `hostIP.To4().String()` is the string `"<nil>"`, so every
pod add-or-update whose reported host IP is a non-empty address string
(in particular, differs from `"<nil>"`) is rejected by the host-IP
comparison and the handler is a no-op: the pod is never inserted into
the proxies cache. -/
theorem podAdd_non_ipv4_node_never_caches (s : String) (st : CtrlState) (pod : Pod)
    (h1 : pod.hostIP ≠ "") (h2 : pod.hostIP ≠ "<nil>") :
    podAdd (NodeAddr.other s) st pod = st := by
  simp [podAdd, NodeAddr.to4String, h2]

/-- Witness for `podAdd_non_ipv4_node_never_caches`: an IPv6 node and
a ready kube-proxy pod with host IP 10.0.0.5. -/
theorem podAdd_non_ipv4_node_never_caches_witness :
    podAdd (NodeAddr.other "fe80::1") CtrlState.empty
      ⟨"kube-system", "kube-proxy-abc", "10.0.0.5", true⟩ = CtrlState.empty :=
  podAdd_non_ipv4_node_never_caches "fe80::1" CtrlState.empty
    ⟨"kube-system", "kube-proxy-abc", "10.0.0.5", true⟩ (by decide) (by decide)

/-- C1: for every state of the three caches and every current route
list, one reconcile run in which every Route Store call succeeds
returns no error, and afterwards a route is in the Route Store exactly
when its proxy key is in the proxies cache, its service key is in the
services cache, and the endpoints cache has an entry under the
service's namespace+name key. -/
theorem reconcile_converges (st : CtrlState) (rs : RouteStore) (x : Route) :
    (reconcile noErr noErr st rs).2 = false ∧
    (x ∈ (reconcile noErr noErr st rs).1.routes ↔ desiredB st x = true) := by
  have heq := reconcile_noErr_eq st rs
  constructor
  · rw [heq]
    exact convergePass_noErr_snd st st.proxies _
  · rw [heq, convergePass_noErr_mem, prunePass_noErr_mem]
    constructor
    · rintro (⟨hx, hd | habs⟩ | ⟨p, hp, s, hs, hse, rfl⟩)
      · exact hd
      · exact absurd hx habs
      · unfold desiredB
        simp only [Bool.and_eq_true]
        refine ⟨⟨?_, ?_⟩, ?_⟩
        · exact (cGet_isSome_iff _ _ _).mpr ⟨p, hp, rfl⟩
        · exact (cGet_isSome_iff _ _ _).mpr ⟨s, hs, rfl⟩
        · exact hse
    · intro hd
      right
      have hd' := hd
      unfold desiredB at hd'
      simp only [Bool.and_eq_true] at hd'
      rcases (cGet_isSome_iff _ _ _).mp hd'.1.1 with ⟨p, hp, hpk⟩
      rcases (cGet_isSome_iff _ _ _).mp hd'.1.2 with ⟨s, hs, hsk⟩
      refine ⟨p, hp, s, hs, ?_, ?_⟩
      · rw [hsk]
        exact hd'.2
      · cases x
        simp only [Route.mk.injEq]
        exact ⟨hsk.symm, hpk.symm⟩

/-- C4: when the current route list holds one distinguished route
whose proxy key is missing from the proxies cache (its other two
checks passing) and every other route passes all three checks, a
reconcile run issues exactly one Route Store `Delete`, on that route
and no other. -/
theorem reconcile_prune_exact (st : CtrlState) (routes : List Route) (r : Route)
    (hnd : routes.Nodup) (hmem : r ∈ routes)
    (hrp : (cGet Pod.key st.proxies r.proxy).isSome = false)
    (hrs : (cGet Service.key st.services r.svc).isSome = true)
    (hre : (cGet Endpoints.key st.endpoints r.svc).isSome = true)
    (hothers : ∀ x ∈ routes, x ≠ r → desiredB st x = true) :
    (reconcile noErr noErr st (RouteStore.init routes)).1.delLog = [r] := by
  rw [reconcile_noErr_eq, convergePass_delLog, prunePass_noErr_delLog]
  have hf1 : failCount st r = 1 := by
    unfold failCount
    rw [if_neg (by simp [hrp]), if_pos hrs, if_pos hre]
  have hsingle := flatMap_replicate_single (failCount st) r routes hnd hmem hf1
    (fun x hx hxr => failCount_eq_zero_of_desired (hothers x hx hxr))
  simp [RouteStore.init, hsingle]

/-- Witness for `reconcile_prune_exact`: two routes, one valid and one
whose proxy has disappeared from the cache; only the latter is
deleted. -/
theorem reconcile_prune_exact_witness :
    (reconcile noErr noErr
        ⟨[⟨"kube-system", "kube-proxy-a", "1.2.3.4", true⟩],
          [⟨"d", "w", ["5.6.7.8"]⟩], [⟨"d", "w", [["10.0.0.1"]]⟩], 0⟩
        (RouteStore.init
          [⟨⟨"d", "w"⟩, ⟨"kube-system", "kube-proxy-a"⟩⟩,
            ⟨⟨"d", "w"⟩, ⟨"kube-system", "kube-proxy-b"⟩⟩])).1.delLog =
      [⟨⟨"d", "w"⟩, ⟨"kube-system", "kube-proxy-b"⟩⟩] :=
  reconcile_prune_exact
    ⟨[⟨"kube-system", "kube-proxy-a", "1.2.3.4", true⟩],
      [⟨"d", "w", ["5.6.7.8"]⟩], [⟨"d", "w", [["10.0.0.1"]]⟩], 0⟩
    [⟨⟨"d", "w"⟩, ⟨"kube-system", "kube-proxy-a"⟩⟩,
      ⟨⟨"d", "w"⟩, ⟨"kube-system", "kube-proxy-b"⟩⟩]
    ⟨⟨"d", "w"⟩, ⟨"kube-system", "kube-proxy-b"⟩⟩
    (by decide) (by decide) (by decide) (by decide) (by decide) (by decide)

/-- C9: in a single error-free reconcile run over a duplicate-free
route list, a route that fails `k` of the three validity checks has
the Route Store's `Delete` invoked on it exactly `k` times (with `k`
up to three), one call per failed check, rather than at most once. -/
theorem prune_delete_count_per_failed_check (st : CtrlState) (routes : List Route)
    (r : Route) (hnd : routes.Nodup) (hr : r ∈ routes) :
    ((reconcile noErr noErr st (RouteStore.init routes)).1.delLog).count r =
      failCount st r ∧ failCount st r ≤ 3 := by
  constructor
  · rw [reconcile_noErr_eq, convergePass_delLog, prunePass_noErr_delLog]
    have := count_flatMap_replicate (failCount st) r routes hnd hr
    simp [RouteStore.init, this]
  · exact failCount_le_three st r

/-- Witness for `prune_delete_count_per_failed_check`: with all caches
empty, the single route fails all three checks and `Delete` is issued
on it three times. -/
theorem prune_delete_count_per_failed_check_witness :
    ((reconcile noErr noErr CtrlState.empty
        (RouteStore.init [⟨⟨"d", "w"⟩, ⟨"k", "p"⟩⟩])).1.delLog).count
        ⟨⟨"d", "w"⟩, ⟨"k", "p"⟩⟩ =
      failCount CtrlState.empty ⟨⟨"d", "w"⟩, ⟨"k", "p"⟩⟩ ∧
    failCount CtrlState.empty ⟨⟨"d", "w"⟩, ⟨"k", "p"⟩⟩ ≤ 3 :=
  prune_delete_count_per_failed_check CtrlState.empty
    [⟨⟨"d", "w"⟩, ⟨"k", "p"⟩⟩] ⟨⟨"d", "w"⟩, ⟨"k", "p"⟩⟩ (by decide) (by decide)

/-- C5: if a Route Store `Delete` issued during the prune pass returns
an error, the reconcile run returns an error immediately: the failing
call is the last call in the delete log (every earlier issued `Delete`
succeeded), and no `Add` call is issued at all. -/
theorem reconcile_abort_on_prune_error (delErr addErr : Route → Bool) (st : CtrlState)
    (routes : List Route)
    (h : (prunePass delErr st routes (RouteStore.init routes)).2 = true) :
    (reconcile delErr addErr st (RouteStore.init routes)).2 = true ∧
    (reconcile delErr addErr st (RouteStore.init routes)).1.addLog = [] ∧
    ∃ ds e, (reconcile delErr addErr st (RouteStore.init routes)).1.delLog = ds ++ [e] ∧
      delErr e = true ∧ ∀ d ∈ ds, delErr d = false := by
  have hrec : reconcile delErr addErr st (RouteStore.init routes) =
      prunePass delErr st routes (RouteStore.init routes) := by
    have h' : (prunePass delErr st (RouteStore.init routes).routes
        (RouteStore.init routes)).2 = true := h
    unfold reconcile
    rw [if_pos h']
    rfl
  refine ⟨?_, ?_, ?_⟩
  · rw [hrec]
    exact h
  · rw [hrec, prunePass_addLog]
    simp [RouteStore.init]
  · rw [hrec]
    exact prunePass_err delErr st routes (RouteStore.init routes)
      (by intro d hd; simp [RouteStore.init] at hd) h

/-- Witness for `reconcile_abort_on_prune_error`: every `Delete`
fails, the caches are empty and there is one route, so the first prune
check errors out at once. -/
theorem reconcile_abort_on_prune_error_witness :
    (reconcile (fun _ => true) (fun _ => true) CtrlState.empty
        (RouteStore.init [⟨⟨"d", "w"⟩, ⟨"k", "p"⟩⟩])).2 = true ∧
    (reconcile (fun _ => true) (fun _ => true) CtrlState.empty
        (RouteStore.init [⟨⟨"d", "w"⟩, ⟨"k", "p"⟩⟩])).1.addLog = [] ∧
    ∃ ds e,
      (reconcile (fun _ => true) (fun _ => true) CtrlState.empty
          (RouteStore.init [⟨⟨"d", "w"⟩, ⟨"k", "p"⟩⟩])).1.delLog = ds ++ [e] ∧
      (fun _ : Route => true) e = true ∧ ∀ d ∈ ds, (fun _ : Route => true) d = false :=
  reconcile_abort_on_prune_error (fun _ => true) (fun _ => true) CtrlState.empty
    [⟨⟨"d", "w"⟩, ⟨"k", "p"⟩⟩] (by decide)

end KubeParrot
